import Mathlib

/-!
Verification of the stream-integration core of `src/mtqq_dashboard.py`
(the live copy, lines 1-556; the text after `__main__` is an appended,
unreachable older copy of the dashboard).

Modelling conventions (shallow embedding):
* A timestamp field is modelled by its parse outcome `Option Nat`
  (seconds since the minimum representable datetime): `none` stands for a
  missing field or for a string on which `pandas.to_datetime` /
  `datetime.fromisoformat` raise, `some t` for a successfully parsed value.
  Flooring the minute to a multiple of `TIME_BUCKET_MINUTES` and zeroing
  seconds and microseconds is exactly flooring the second count to a
  multiple of 300, since an hour and a day are multiples of 300 seconds.
* Numeric JSON fields are modelled as `Rat`; `none` marks a missing field
  (whose subscript access raises `KeyError` in Python).
* Python dictionaries keyed by strings or pairs are modelled by
  association lists with first-match lookup; insertion prepends, so the
  most recently written binding wins, matching dict assignment.
* A per-message `except` block whose body only prints is modelled by the
  message producing no state change.
-/

namespace MtqqDashboard

/-- Configured bucket width in minutes (line 21 of the source). -/
def TIME_BUCKET_MINUTES : Nat := 5

/-- Bucket width in seconds. -/
def BUCKET_SECONDS : Nat := TIME_BUCKET_MINUTES * 60

/-- Floor a parsed timestamp (in seconds) to the start of its bucket. -/
def bucketOf (t : Nat) : Nat := t / BUCKET_SECONDS * BUCKET_SECONDS

/-- Embeds `round_to_bucket` (source lines 157-161): `pd.to_datetime`
raises on unparsable input (modelled by `none ↦ none`); otherwise the
timestamp is floored to the bucket boundary. -/
def round_to_bucket (ts : Option Nat) : Option Nat := ts.map bucketOf

/-- Embeds `parse_ts` (source lines 107-112): `datetime.fromisoformat`,
with `datetime.min` (modelled as `0`) substituted on any parse failure. -/
def parse_ts (ts : Option Nat) : Nat := ts.getD 0

/-- Python `str.strip` on the underlying character list. -/
def stripChars (l : List Char) : List Char :=
  ((l.dropWhile Char.isWhitespace).reverse.dropWhile Char.isWhitespace).reverse

/-- Python `str.strip`. -/
def strip (s : String) : String := String.mk (stripChars s.data)

/-- Python `s.lower().replace(" ", "")`: lowercase every character, then
delete the space characters. -/
def lowerNoSpace (s : String) : String :=
  String.mk ((s.data.map Char.toLower).filter (fun c => !(c == ' ')))

/-- The `FUEL_CANONICALS` dictionary (source lines 35-51), as an
association list; the dict literal has pairwise distinct keys, so
first-match lookup agrees with Python dict lookup. -/
def FUEL_CANONICALS : List (String × String) :=
  [("battery", "Battery"),
   ("bioenergy", "Bioenergy"),
   ("bagasse", "Bagasse"),
   ("browncoal", "Brown Coal"),
   ("blackcoal", "Black Coal"),
   ("coal", "Coal"),
   ("diesel", "Diesel"),
   ("distillate", "Diesel"),
   ("gas", "Gas"),
   ("wastecoalminegas", "Waste Coal Mine Gas"),
   ("landfillgas", "Landfill Gas"),
   ("hydro", "Hydro"),
   ("wind", "Wind"),
   ("solar", "Solar"),
   ("wood", "Wood")]

/-- First-match lookup in an association list of strings (Python
`dict.get` with a default handled at the call site). -/
def fuelLookup : List (String × String) → String → Option String
  | [], _ => none
  | (k, v) :: t, s => if k = s then some v else fuelLookup t s

/-- Embeds `normalize_fuel` (source lines 52-57). The input is `none`
for Python `None`, `some v` for (the `str` image of) any other value.
Note the fallback `FUEL_CANONICALS.get(key, s)` returns the *stripped
input*, not `"Other"`, when the key is absent. -/
def normalize_fuel (val : Option String) : String :=
  match val with
  | none => "Other"
  | some v =>
      let s := strip v
      let key := lowerNoSpace s
      (fuelLookup FUEL_CANONICALS key).getD s

/-- An inbound market message (JSON payload on the market topic, §6 of
the spec): each field is `none` when missing from the payload (so Python
subscript access raises); `timestamp` is additionally `none` when the
string does not parse. -/
structure MarketMsg where
  region : Option String
  price : Option Rat
  demand_energy : Option Rat
  timestamp : Option Nat
deriving DecidableEq

/-- The value stored in `market_buckets[bucket][region]` (source lines
177-181): price, demand and the message's source timestamp. -/
structure MarketEntry where
  price : Rat
  demand_energy : Rat
  timestamp : Nat
deriving DecidableEq

/-- An inbound facility message (JSON payload on the facilities topic). -/
structure FacilityMsg where
  facility_code : Option String
  power : Option Rat
  emissions : Option Rat
  timestamp : Option Nat
deriving DecidableEq

/-- One row of `facilities_metadata` as loaded by `get_data_from_db`
(source lines 59-79): the raw `fuel_type` column is stored unchanged. -/
structure FacilityMeta where
  facility_name : String
  region : String
  lat : Rat
  lng : Rat
  fuel_type : String
deriving DecidableEq

/-- The dictionary stored in `facilities_data[facility_code]` (source
lines 211-233). `price`, `demand_energy` and `market_timestamp` are
`Option`s because `market_data.get(...)` yields `None` on a miss. -/
structure IntegratedRecord where
  facility_code : String
  power : Rat
  emissions : Rat
  timestamp : Nat
  time_bucket : Nat
  facility_name : String
  network_region : String
  lat : Rat
  lng : Rat
  fuel_type : String
  price : Option Rat
  demand_energy : Option Rat
  market_timestamp : Option Nat
  has_market_data : Bool
deriving DecidableEq

/-- The `market_buckets` nested dict, flattened to (bucket, region) keys. -/
abbrev MarketIndex := List ((Nat × String) × MarketEntry)

/-- The `facilities_metadata` dict. -/
abbrev Metadata := List (String × FacilityMeta)

/-- The `facilities_data` dict (the Facility State Store). -/
abbrev FacilityStore := List (String × IntegratedRecord)

/-- Mutable state touched by `integrate_data_sources`. -/
structure EngineState where
  market_buckets : MarketIndex
  facilities_data : FacilityStore
deriving DecidableEq

/-- First-match lookup in the Market Index. -/
def mbLookup : MarketIndex → Nat → String → Option MarketEntry
  | [], _, _ => none
  | (k, e) :: t, b, r => if k = (b, r) then some e else mbLookup t b r

/-- Dict assignment `market_buckets[bucket][region] = entry`: prepend,
so the newest binding shadows older ones (last received wins). -/
def mbUpsert (idx : MarketIndex) (b : Nat) (r : String) (e : MarketEntry) : MarketIndex :=
  ((b, r), e) :: idx

/-- First-match lookup in the Facility State Store. -/
def fdLookup : FacilityStore → String → Option IntegratedRecord
  | [], _ => none
  | (k, e) :: t, c => if k = c then some e else fdLookup t c

/-- Dict assignment `facilities_data[facility_code] = record`. -/
def fdUpsert (fd : FacilityStore) (c : String) (r : IntegratedRecord) : FacilityStore :=
  (c, r) :: fd

/-- Lookup in the loaded facility metadata. -/
def metaLookup : Metadata → String → Option FacilityMeta
  | [], _ => none
  | (k, e) :: t, c => if k = c then some e else metaLookup t c

/-- The processing of one drained market message (source lines 171-186):
`msg['timestamp']`, `round_to_bucket`, `msg['region']` and the entry
literal's `msg['price']` / `msg['demand_energy']` all raise before the
index is assigned to, so the message either parses fully, yielding its
(bucket, region) key and entry, or contributes nothing. -/
def parseMarket (m : MarketMsg) : Option ((Nat × String) × MarketEntry) :=
  match m.timestamp, m.region, m.price, m.demand_energy with
  | some ts, some r, some p, some d =>
      some ((bucketOf ts, r), { price := p, demand_energy := d, timestamp := ts })
  | _, _, _, _ => none

/-- One iteration of the market drain loop. -/
def processMarketMsg (idx : MarketIndex) (m : MarketMsg) : MarketIndex :=
  match parseMarket m with
  | none => idx
  | some (k, e) => mbUpsert idx k.1 k.2 e

/-- The full market drain: every message present at cycle start, in FIFO
order. -/
def processMarketBatch (idx : MarketIndex) (ms : List MarketMsg) : MarketIndex :=
  ms.foldl processMarketMsg idx

/-- Market lookup with the one-interval fallback (source lines 203-209):
the exact (bucket, region) key first; only if that misses, the key one
bucket width earlier. (`Nat` subtraction truncates at zero; the
pre-epoch bucket below bucket 0 holds no entry in either model.) -/
def marketLookup (idx : MarketIndex) (bucket : Nat) (region : String) : Option MarketEntry :=
  match mbLookup idx bucket region with
  | some e => some e
  | none => mbLookup idx (bucket - BUCKET_SECONDS) region

/-- The `integrated_record` dict literal (source lines 211-233). -/
def buildRecord (code : String) (md : FacilityMeta) (pw em : Rat) (ts bucket : Nat)
    (mdata : Option MarketEntry) : IntegratedRecord :=
  { facility_code := code
    power := pw
    emissions := em
    timestamp := ts
    time_bucket := bucket
    facility_name := md.facility_name
    network_region := md.region
    lat := md.lat
    lng := md.lng
    fuel_type := md.fuel_type
    price := mdata.map MarketEntry.price
    demand_energy := mdata.map MarketEntry.demand_energy
    market_timestamp := mdata.map MarketEntry.timestamp
    has_market_data := mdata.isSome }

/-- One iteration of the facility drain loop (source lines 189-241):
missing `facility_code`, unknown code, unparsable/missing timestamp or a
missing numeric field each leave the state unchanged (`continue` or a
caught exception before the store assignment); otherwise the record is
assembled against the current Market Index and upserted. -/
def integrateFacilityMsg (meta : Metadata) (st : EngineState) (msg : FacilityMsg) :
    EngineState :=
  match msg.facility_code with
  | none => st
  | some code =>
    match metaLookup meta code with
    | none => st
    | some md =>
      match msg.timestamp with
      | none => st
      | some ts =>
        match msg.power, msg.emissions with
        | some pw, some em =>
            let bucket := bucketOf ts
            let mdata := marketLookup st.market_buckets bucket md.region
            { st with facilities_data :=
                fdUpsert st.facilities_data code (buildRecord code md pw em ts bucket mdata) }
        | _, _ => st

/-- The store assignment `facilities_data[facility_code] = record` seen
as a state transformer. -/
def storeStep (st : EngineState) (c : String) (r : IntegratedRecord) : EngineState :=
  { st with facilities_data := fdUpsert st.facilities_data c r }

/-- Embeds `integrate_data_sources` (source lines 163-247) applied to
the queue contents present at cycle start: the market queue is drained
fully and upserted first, then every facility message is joined against
the resulting index. -/
def integrate_data_sources (meta : Metadata) (st : EngineState)
    (marketMsgs : List MarketMsg) (facilityMsgs : List FacilityMsg) : EngineState :=
  let idx := processMarketBatch st.market_buckets marketMsgs
  facilityMsgs.foldl (integrateFacilityMsg meta) { st with market_buckets := idx }

/-- A sequence of timer-driven cycles, each given the two batches its
drains return. -/
def runCycles (meta : Metadata) (st : EngineState)
    (cycles : List (List MarketMsg × List FacilityMsg)) : EngineState :=
  cycles.foldl (fun s c => integrate_data_sources meta s c.1 c.2) st

/-- Invariant of the Facility State Store: every stored key is a known
facility code. -/
def storeKeysKnown (meta : Metadata) (fd : FacilityStore) : Prop :=
  ∀ p ∈ fd, (metaLookup meta p.1).isSome = true

/-! Concrete data, mirroring the scenario of §8 of the spec (facility F1
in region NSW1, market price 55 / demand 900 — integer-valued rationals
so that closed statements reduce by `decide`), used to instantiate the
theorems below on closed inputs. -/

/-- Metadata row for facility F1; the raw fuel label is the
unnormalized string "blackcoal". -/
def md0 : FacilityMeta :=
  { facility_name := "Plant 1", region := "NSW1", lat := -33, lng := 151,
    fuel_type := "blackcoal" }

/-- A one-facility metadata table. -/
def meta0 : Metadata := [("F1", md0)]

/-- A fully populated market message: bucket 600, region NSW1. -/
def m0 : MarketMsg :=
  { region := some "NSW1", price := some 55, demand_energy := some 900,
    timestamp := some 602 }

/-- A fully populated facility message for F1, timestamp in bucket 600. -/
def f0 : FacilityMsg :=
  { facility_code := some "F1", power := some 120, emissions := some 80,
    timestamp := some 603 }

/-- A facility message whose code is absent from `meta0`. -/
def fU : FacilityMsg :=
  { facility_code := some "ZZZ", power := some 50, emissions := some 5,
    timestamp := some 604 }

/-- A market message with the required `price` field missing. -/
def badM : MarketMsg :=
  { region := some "NSW1", price := none, demand_energy := some 900,
    timestamp := some 601 }

/-- A facility message with the required `power` field missing. -/
def badF : FacilityMsg :=
  { facility_code := some "F1", power := none, emissions := some 80,
    timestamp := some 603 }

/-- The empty engine state. -/
def st0 : EngineState := { market_buckets := [], facilities_data := [] }

/-- The record the engine stores for `f0` when the Market Index is empty. -/
def rec0 : IntegratedRecord := buildRecord "F1" md0 120 80 603 600 none

/-- One cycle carrying one market message and one known plus one unknown
facility message. -/
def cycles0 : List (List MarketMsg × List FacilityMsg) := [([m0], [f0, fU])]

/-! Helper lemmas about `List.dropWhile`, used for idempotence of `strip`. -/

theorem dropWhile_idem (p : Char → Bool) (l : List Char) :
    (l.dropWhile p).dropWhile p = l.dropWhile p := by
  induction l with
  | nil => rfl
  | cons a t ih =>
      by_cases h : p a
      · simp [List.dropWhile_cons, h, ih]
      · simp [List.dropWhile_cons, h]

theorem dropWhile_head_false (p : Char → Bool) :
    ∀ (l : List Char) (a : Char) (t : List Char), l.dropWhile p = a :: t → p a = false := by
  intro l
  induction l with
  | nil => intro a t h; cases h
  | cons x xs ih =>
      intro a t h
      by_cases hx : p x
      · exact ih a t (by simpa [List.dropWhile_cons, hx] using h)
      · rw [List.dropWhile_cons] at h
        simp only [hx, if_false, Bool.false_eq_true] at h
        obtain ⟨rfl, -⟩ := List.cons.inj h
        simpa using hx

theorem dropWhile_suffix_exists (p : Char → Bool) (l : List Char) :
    ∃ u, u ++ l.dropWhile p = l := by
  induction l with
  | nil => exact ⟨[], rfl⟩
  | cons a t ih =>
      by_cases h : p a
      · obtain ⟨u, hu⟩ := ih
        exact ⟨a :: u, by simp [List.dropWhile_cons, h, hu]⟩
      · exact ⟨[], by simp [List.dropWhile_cons, h]⟩

theorem stripChars_dropWhile (l : List Char) :
    (stripChars l).dropWhile Char.isWhitespace = stripChars l := by
  cases hS : stripChars l with
  | nil => rfl
  | cons a t =>
      obtain ⟨u, hu⟩ :=
        dropWhile_suffix_exists Char.isWhitespace (l.dropWhile Char.isWhitespace).reverse
      have h2 : stripChars l ++ u.reverse = l.dropWhile Char.isWhitespace := by
        have h3 := congrArg List.reverse hu
        simpa [stripChars, List.reverse_append] using h3
      rw [hS] at h2
      have ha : Char.isWhitespace a = false :=
        dropWhile_head_false _ l a (t ++ u.reverse) (by simpa using h2.symm)
      rw [List.dropWhile_cons, ha]
      simp

theorem stripChars_idem (l : List Char) : stripChars (stripChars l) = stripChars l := by
  calc stripChars (stripChars l)
      = (((stripChars l).dropWhile Char.isWhitespace).reverse.dropWhile
          Char.isWhitespace).reverse := rfl
    _ = ((stripChars l).reverse.dropWhile Char.isWhitespace).reverse := by
          rw [stripChars_dropWhile]
    _ = ((((l.dropWhile Char.isWhitespace).reverse.dropWhile
          Char.isWhitespace).reverse.reverse).dropWhile Char.isWhitespace).reverse := rfl
    _ = (((l.dropWhile Char.isWhitespace).reverse.dropWhile
          Char.isWhitespace).dropWhile Char.isWhitespace).reverse := by
          rw [List.reverse_reverse]
    _ = ((l.dropWhile Char.isWhitespace).reverse.dropWhile Char.isWhitespace).reverse := by
          rw [dropWhile_idem]
    _ = stripChars l := rfl

theorem strip_idem (s : String) : strip (strip s) = strip s := by
  show String.mk (stripChars (stripChars s.data)) = String.mk (stripChars s.data)
  rw [stripChars_idem]

theorem fuelLookup_mem :
    ∀ (l : List (String × String)) (k c : String),
      fuelLookup l k = some c → c ∈ l.map Prod.snd := by
  intro l
  induction l with
  | nil => intro k c h; cases h
  | cons a t ih =>
      intro k c h
      obtain ⟨ka, va⟩ := a
      by_cases hk : ka = k
      · simp only [fuelLookup, if_pos hk, Option.some.injEq] at h
        simp [h]
      · simp only [fuelLookup, if_neg hk] at h
        exact List.mem_cons_of_mem _ (ih k c h)

theorem canonical_fixed (c : String) (hc : c ∈ FUEL_CANONICALS.map Prod.snd) :
    normalize_fuel (some c) = c := by
  simp only [FUEL_CANONICALS, List.map, List.mem_cons, List.not_mem_nil, or_false] at hc
  rcases hc with rfl | rfl | rfl | rfl | rfl | rfl | rfl | rfl | rfl | rfl | rfl | rfl | rfl | rfl | rfl
  all_goals decide

/-- C10: `normalize_fuel` is idempotent — every canonical category and
the fallback result (the stripped input, or `"Other"` for `None`) are
fixed points. -/
theorem normalize_fuel_idempotent (v : Option String) :
    normalize_fuel (some (normalize_fuel v)) = normalize_fuel v := by
  match v with
  | none => decide
  | some s =>
      cases hl : fuelLookup FUEL_CANONICALS (lowerNoSpace (strip s)) with
      | some c =>
          have h1 : normalize_fuel (some s) = c := by simp [normalize_fuel, hl]
          rw [h1]
          exact canonical_fixed c (fuelLookup_mem _ _ _ hl)
      | none =>
          have h1 : normalize_fuel (some s) = strip s := by simp [normalize_fuel, hl]
          rw [h1]
          have h2 : strip (strip s) = strip s := strip_idem s
          simp [normalize_fuel, h2, hl]

/-- C5: on parsable timestamps, `round_to_bucket` computes `bucketOf`,
which is monotone and contractive (floor to a multiple of the bucket
width). -/
theorem round_to_bucket_monotone_contractive :
    (∀ t : Nat, round_to_bucket (some t) = some (bucketOf t)) ∧
    (∀ t1 t2 : Nat, t1 ≤ t2 → bucketOf t1 ≤ bucketOf t2) ∧
    (∀ t : Nat, bucketOf t ≤ t) := by
  refine ⟨fun t => rfl, fun t1 t2 h => ?_, fun t => Nat.div_mul_le_self t BUCKET_SECONDS⟩
  exact Nat.mul_le_mul_right _ (Nat.div_le_div_right h)

theorem round_to_bucket_monotone_contractive_witness :
    (100 : Nat) ≤ 400 ∧ bucketOf 100 ≤ bucketOf 400 :=
  ⟨by decide, round_to_bucket_monotone_contractive.2.1 100 400 (by decide)⟩

/-- C6 counterexample: on unparsable input (`none`), `round_to_bucket`
yields no bucket at all — `pd.to_datetime` raises — rather than any
sentinel bucket; in particular it does not return the earliest bucket
`some 0`. -/
theorem round_to_bucket_no_sentinel :
    round_to_bucket none = none ∧ ∀ b : Nat, round_to_bucket none ≠ some b :=
  ⟨rfl, fun _ h => Option.noConfusion h⟩

/-- C6 amended: the bucketizer propagates the parse failure (raises);
the sentinel-minimum substitution lives in the separate `parse_ts`
helper, and totality of the engine comes from the per-message exception
handling, which skips the message and leaves all state unchanged. -/
theorem round_to_bucket_raises_engine_skips :
    round_to_bucket none = none ∧ parse_ts none = 0 ∧
    (∀ t : Nat, parse_ts (some t) = t) ∧
    (∀ (meta : Metadata) (st : EngineState) (msg : FacilityMsg),
        integrateFacilityMsg meta st { msg with timestamp := none } = st) ∧
    (∀ (idx : MarketIndex) (msg : MarketMsg),
        processMarketMsg idx { msg with timestamp := none } = idx) := by
  refine ⟨rfl, rfl, fun t => rfl, ?_, ?_⟩
  · intro meta st msg
    obtain ⟨fc, pw, em, ts⟩ := msg
    unfold integrateFacilityMsg
    cases fc with
    | none => rfl
    | some code => cases h : metaLookup meta code <;> simp [h]
  · intro idx msg
    obtain ⟨r, p, d, ts⟩ := msg
    rfl

/-- C2: the Market Index lookup consults exactly the reading's own
(bucket, region) key, and the key one interval back if and only if the
exact key misses; no older bucket influences the result. -/
theorem marketLookup_fallback_characterization (idx : MarketIndex) (b : Nat) (r : String) :
    marketLookup idx b r =
      if (mbLookup idx b r).isSome then mbLookup idx b r
      else mbLookup idx (b - BUCKET_SECONDS) r := by
  unfold marketLookup
  cases h : mbLookup idx b r <;> simp

/-- C7 counterexample: an unrecognized, non-null label is returned
stripped, not mapped to `"Other"`: `FUEL_CANONICALS.get(key, s)`
defaults to the stripped input `s`. -/
theorem normalize_fuel_unrecognized_counterexample :
    fuelLookup FUEL_CANONICALS (lowerNoSpace (strip "Nuclear")) = none ∧
    normalize_fuel (some "Nuclear") = "Nuclear" ∧
    normalize_fuel (some "Nuclear") ≠ "Other" :=
  ⟨by decide, by decide, by decide⟩

/-- C7 amended: `normalize_fuel` never fails and maps null to
`"Other"`; a recognized label maps to its canonical category, but an
unrecognized non-null label maps to the stripped input string, not to
`"Other"`. -/
theorem normalize_fuel_amended :
    normalize_fuel none = "Other" ∧
    (∀ s c, fuelLookup FUEL_CANONICALS (lowerNoSpace (strip s)) = some c →
        normalize_fuel (some s) = c) ∧
    (∀ s, fuelLookup FUEL_CANONICALS (lowerNoSpace (strip s)) = none →
        normalize_fuel (some s) = strip s) :=
  ⟨rfl, fun s c h => by simp [normalize_fuel, h], fun s h => by simp [normalize_fuel, h]⟩

theorem normalize_fuel_amended_witness :
    fuelLookup FUEL_CANONICALS (lowerNoSpace (strip " Brown coal ")) = some "Brown Coal" ∧
    normalize_fuel (some " Brown coal ") = "Brown Coal" :=
  ⟨by decide, normalize_fuel_amended.2.1 " Brown coal " "Brown Coal" (by decide)⟩

/-! Lemmas about the Market Index and the facility drain step. -/

theorem mbLookup_upsert_hit (idx : MarketIndex) (b : Nat) (r : String) (e : MarketEntry) :
    mbLookup (mbUpsert idx b r e) b r = some e := by
  simp [mbUpsert, mbLookup]

theorem mbLookup_upsert_miss (idx : MarketIndex) (b b' : Nat) (r r' : String)
    (e : MarketEntry) (h : (b', r') ≠ (b, r)) :
    mbLookup (mbUpsert idx b' r' e) b r = mbLookup idx b r := by
  simp [mbUpsert, mbLookup, h]

theorem processMarketMsg_preserve (idx : MarketIndex) (m : MarketMsg) (b : Nat) (r : String)
    (h : ∀ k e, parseMarket m = some (k, e) → k ≠ (b, r)) :
    mbLookup (processMarketMsg idx m) b r = mbLookup idx b r := by
  cases hp : parseMarket m with
  | none => simp [processMarketMsg, hp]
  | some ke =>
      obtain ⟨k, e⟩ := ke
      simp only [processMarketMsg, hp]
      exact mbLookup_upsert_miss idx b k.1 r k.2 e (by simpa using h k e hp)

theorem processMarketBatch_preserve (b : Nat) (r : String) :
    ∀ (ms : List MarketMsg) (idx : MarketIndex),
      (∀ m ∈ ms, ∀ k e, parseMarket m = some (k, e) → k ≠ (b, r)) →
      mbLookup (processMarketBatch idx ms) b r = mbLookup idx b r := by
  intro ms
  induction ms with
  | nil => intro idx _; rfl
  | cons m t ih =>
      intro idx h
      have h1 : processMarketBatch idx (m :: t) = processMarketBatch (processMarketMsg idx m) t := rfl
      rw [h1, ih _ (fun m' hm' => h m' (List.mem_cons_of_mem _ hm')),
        processMarketMsg_preserve idx m b r (h m (List.mem_cons_self _ _))]

theorem marketLookup_exact (idx : MarketIndex) (b : Nat) (r : String) (e : MarketEntry)
    (h : mbLookup idx b r = some e) : marketLookup idx b r = some e := by
  unfold marketLookup
  rw [h]

theorem marketLookup_isSome_or (idx : MarketIndex) (b : Nat) (r : String) :
    (marketLookup idx b r).isSome =
      ((mbLookup idx b r).isSome || (mbLookup idx (b - BUCKET_SECONDS) r).isSome) := by
  unfold marketLookup
  cases h : mbLookup idx b r <;> simp

/-- Each facility drain iteration either leaves the state unchanged
(some field missing, unknown code, unparsable timestamp) or fully
parses and upserts the assembled record. -/
theorem integrateFacilityMsg_cases (meta : Metadata) (st : EngineState) (msg : FacilityMsg) :
    integrateFacilityMsg meta st msg = st ∨
    ∃ c md pw em ts, msg.facility_code = some c ∧ metaLookup meta c = some md ∧
      msg.timestamp = some ts ∧ msg.power = some pw ∧ msg.emissions = some em ∧
      integrateFacilityMsg meta st msg =
        storeStep st c (buildRecord c md pw em ts (bucketOf ts)
          (marketLookup st.market_buckets (bucketOf ts) md.region)) := by
  obtain ⟨fc, pw, em, ts⟩ := msg
  cases fc with
  | none => exact Or.inl rfl
  | some code =>
      cases hm : metaLookup meta code with
      | none => exact Or.inl (by simp [integrateFacilityMsg, hm])
      | some md =>
          cases ts with
          | none => exact Or.inl (by simp [integrateFacilityMsg, hm])
          | some t =>
              cases pw with
              | none => exact Or.inl (by simp [integrateFacilityMsg, hm])
              | some pwv =>
                  cases em with
                  | none => exact Or.inl (by simp [integrateFacilityMsg, hm])
                  | some emv =>
                      exact Or.inr ⟨code, md, pwv, emv, t, rfl, hm, rfl, rfl, rfl,
                        by simp [integrateFacilityMsg, storeStep, hm]⟩

theorem integrateFacilityMsg_market_buckets (meta : Metadata) (st : EngineState)
    (msg : FacilityMsg) :
    (integrateFacilityMsg meta st msg).market_buckets = st.market_buckets := by
  rcases integrateFacilityMsg_cases meta st msg with heq | ⟨c, md, pw, em, ts, _, _, _, _, _, heq⟩
  · rw [heq]
  · rw [heq]
    rfl

theorem facilityFold_market_buckets (meta : Metadata) :
    ∀ (fs : List FacilityMsg) (st : EngineState),
      (fs.foldl (integrateFacilityMsg meta) st).market_buckets = st.market_buckets := by
  intro fs
  induction fs with
  | nil => intro st; rfl
  | cons f t ih =>
      intro st
      rw [List.foldl_cons, ih, integrateFacilityMsg_market_buckets]

theorem fdLookup_upsert_hit (fd : FacilityStore) (c : String) (r : IntegratedRecord) :
    fdLookup (fdUpsert fd c r) c = some r := by
  simp [fdUpsert, fdLookup]

theorem fdLookup_upsert_miss (fd : FacilityStore) (c c' : String) (r : IntegratedRecord)
    (h : c' ≠ c) : fdLookup (fdUpsert fd c' r) c = fdLookup fd c := by
  simp [fdUpsert, fdLookup, h]

theorem integrateFacilityMsg_fd_preserve (meta : Metadata) (st : EngineState)
    (msg : FacilityMsg) (c : String) (h : msg.facility_code ≠ some c) :
    fdLookup (integrateFacilityMsg meta st msg).facilities_data c
      = fdLookup st.facilities_data c := by
  rcases integrateFacilityMsg_cases meta st msg with heq | ⟨c', md, pw, em, ts, hc', _, _, _, _, heq⟩
  · rw [heq]
  · rw [heq]
    refine fdLookup_upsert_miss _ c c' _ (fun hcc => h ?_)
    rw [hc', hcc]

theorem facilityFold_fd_preserve (meta : Metadata) (c : String) :
    ∀ (fs : List FacilityMsg) (st : EngineState),
      (∀ f ∈ fs, f.facility_code ≠ some c) →
      fdLookup ((fs.foldl (integrateFacilityMsg meta) st)).facilities_data c
        = fdLookup st.facilities_data c := by
  intro fs
  induction fs with
  | nil => intro st _; rfl
  | cons f t ih =>
      intro st h
      rw [List.foldl_cons, ih _ (fun g hg => h g (List.mem_cons_of_mem _ hg)),
        integrateFacilityMsg_fd_preserve meta st f c (h f (List.mem_cons_self _ _))]

theorem integrateFacilityMsg_store (meta : Metadata) (st : EngineState) (msg : FacilityMsg)
    (c : String) (md : FacilityMeta) (pw em : Rat) (ts : Nat)
    (hc : msg.facility_code = some c) (hmd : metaLookup meta c = some md)
    (hts : msg.timestamp = some ts) (hpw : msg.power = some pw)
    (hem : msg.emissions = some em) :
    integrateFacilityMsg meta st msg =
      storeStep st c (buildRecord c md pw em ts (bucketOf ts)
        (marketLookup st.market_buckets (bucketOf ts) md.region)) := by
  obtain ⟨fc, pw', em', ts'⟩ := msg
  dsimp only at hc hts hpw hem
  subst hc
  subst hts
  subst hpw
  subst hem
  simp [integrateFacilityMsg, storeStep, hmd]

theorem fdLookup_storeStep_hit (st : EngineState) (c : String) (r : IntegratedRecord) :
    fdLookup (storeStep st c r).facilities_data c = some r :=
  fdLookup_upsert_hit _ _ _

theorem fdLookup_storeStep_miss (st : EngineState) (c c' : String) (r : IntegratedRecord)
    (h : c' ≠ c) :
    fdLookup (storeStep st c' r).facilities_data c = fdLookup st.facilities_data c :=
  fdLookup_upsert_miss _ _ _ _ h

/-- C1: the market batch is fully applied to the Market Index before any
facility message is joined, so a market reading and a facility reading
already queued when the cycle starts join within that cycle: the stored
record carries the market reading's price and demand and the common
bucket, with `has_market_data` set. -/
theorem market_drain_before_facility_join
    (meta : Metadata) (st : EngineState)
    (ms1 ms2 : List MarketMsg) (m : MarketMsg)
    (fs1 fs2 : List FacilityMsg) (f : FacilityMsg)
    (B : Nat) (R c : String) (md : FacilityMeta) (e : MarketEntry)
    (ts : Nat) (pw em : Rat)
    (hm : parseMarket m = some ((B, R), e))
    (hms2 : ∀ m2 ∈ ms2, ∀ k en, parseMarket m2 = some (k, en) → k ≠ (B, R))
    (hc : f.facility_code = some c)
    (hmd : metaLookup meta c = some md)
    (hR : md.region = R)
    (hts : f.timestamp = some ts)
    (hB : bucketOf ts = B)
    (hpw : f.power = some pw)
    (hem : f.emissions = some em)
    (hfs2 : ∀ f2 ∈ fs2, f2.facility_code ≠ some c) :
    ∃ r, fdLookup (integrate_data_sources meta st (ms1 ++ m :: ms2)
        (fs1 ++ f :: fs2)).facilities_data c = some r ∧
      r.has_market_data = true ∧ r.price = some e.price ∧
      r.demand_energy = some e.demand_energy ∧ r.time_bucket = B := by
  unfold integrate_data_sources
  set idx := processMarketBatch st.market_buckets (ms1 ++ m :: ms2) with hidx
  have hlook : mbLookup idx B R = some e := by
    rw [hidx]
    have h1 : processMarketBatch st.market_buckets (ms1 ++ m :: ms2)
        = processMarketBatch (processMarketMsg (processMarketBatch st.market_buckets ms1) m)
          ms2 := by
      simp [processMarketBatch, List.foldl_append, List.foldl_cons]
    rw [h1, processMarketBatch_preserve B R ms2 _ hms2]
    simp [processMarketMsg, hm, mbUpsert, mbLookup]
  set st1 : EngineState := { st with market_buckets := idx } with hst1
  set stA := fs1.foldl (integrateFacilityMsg meta) st1 with hstA
  have hmbA : stA.market_buckets = idx := by
    rw [hstA, facilityFold_market_buckets]
  have hstep : integrateFacilityMsg meta stA f
      = storeStep stA c (buildRecord c md pw em ts (bucketOf ts)
        (marketLookup stA.market_buckets (bucketOf ts) md.region)) :=
    integrateFacilityMsg_store meta stA f c md pw em ts hc hmd hts hpw hem
  have hmdata : marketLookup stA.market_buckets (bucketOf ts) md.region = some e := by
    rw [hmbA, hB, hR]
    exact marketLookup_exact idx B R e hlook
  rw [hmdata] at hstep
  refine ⟨buildRecord c md pw em ts (bucketOf ts) (some e), ?_, rfl, rfl, rfl, hB⟩
  rw [List.foldl_append, List.foldl_cons, facilityFold_fd_preserve meta c fs2 _ hfs2, hstep]
  exact fdLookup_storeStep_hit stA c _

theorem market_drain_before_facility_join_witness :
    ∃ r, fdLookup (integrate_data_sources meta0 st0 [m0] [f0]).facilities_data "F1"
        = some r ∧
      r.has_market_data = true ∧ r.price = some (55 : Rat) ∧
      r.demand_energy = some (900 : Rat) ∧ r.time_bucket = 600 :=
  market_drain_before_facility_join meta0 st0 [] [] m0 [] [] f0 600 "NSW1" "F1" md0
    { price := 55, demand_energy := 900, timestamp := 602 } 603 120 80
    (by decide) (fun m2 hm2 => absurd hm2 (List.not_mem_nil m2))
    (by decide) (by decide) (by decide) (by decide) (by decide) (by decide) (by decide)
    (fun f2 hf2 => absurd hf2 (List.not_mem_nil f2))

/-- C3: a record newly produced by a facility drain iteration has
`has_market_data` set exactly when the Market Index, as it stood for
that join, holds an entry at the record's bucket or at the bucket one
interval earlier for its region; when the flag is false the price and
demand fields are absent (`None`). -/
theorem has_market_data_iff_found (meta : Metadata) (st : EngineState) (msg : FacilityMsg)
    (c : String) (r : IntegratedRecord)
    (hstep : fdLookup (integrateFacilityMsg meta st msg).facilities_data c = some r)
    (hnew : fdLookup st.facilities_data c ≠ some r) :
    (r.has_market_data = true ↔
      ((mbLookup st.market_buckets r.time_bucket r.network_region).isSome = true ∨
        (mbLookup st.market_buckets (r.time_bucket - BUCKET_SECONDS)
          r.network_region).isSome = true)) ∧
    (r.has_market_data = false → r.price = none ∧ r.demand_energy = none) := by
  rcases integrateFacilityMsg_cases meta st msg with heq |
    ⟨c2, md, pw, em, ts, hc2, hmd2, hts, hpw, hem, heq⟩
  · rw [heq] at hstep
    exact absurd hstep hnew
  · rw [heq] at hstep
    by_cases hcc : c2 = c
    · subst hcc
      rw [fdLookup_storeStep_hit] at hstep
      have hr := Option.some.inj hstep
      subst hr
      constructor
      · simp only [buildRecord]
        rw [marketLookup_isSome_or]
        simp
      · intro hf
        simp only [buildRecord] at hf ⊢
        cases hmk : marketLookup st.market_buckets (bucketOf ts) md.region with
        | some e =>
            rw [hmk] at hf
            exact absurd hf (by simp)
        | none => simp [hmk]
    · rw [fdLookup_storeStep_miss st c c2 _ hcc] at hstep
      exact absurd hstep hnew

theorem has_market_data_iff_found_witness :
    fdLookup (integrateFacilityMsg meta0 st0 f0).facilities_data "F1" = some rec0 ∧
    fdLookup st0.facilities_data "F1" ≠ some rec0 ∧
    ((rec0.has_market_data = true ↔
        ((mbLookup st0.market_buckets rec0.time_bucket rec0.network_region).isSome = true ∨
          (mbLookup st0.market_buckets (rec0.time_bucket - BUCKET_SECONDS)
            rec0.network_region).isSome = true)) ∧
      (rec0.has_market_data = false → rec0.price = none ∧ rec0.demand_energy = none)) :=
  ⟨by decide, by decide,
    has_market_data_iff_found meta0 st0 f0 "F1" rec0 (by decide) (by decide)⟩

/-- One facility drain iteration keeps every stored key known. -/
theorem integrateFacilityMsg_keys (meta : Metadata) (st : EngineState) (msg : FacilityMsg)
    (h : storeKeysKnown meta st.facilities_data) :
    storeKeysKnown meta (integrateFacilityMsg meta st msg).facilities_data := by
  rcases integrateFacilityMsg_cases meta st msg with heq |
    ⟨c, md, pw, em, ts, hc, hmd, hts, hpw, hem, heq⟩
  · rw [heq]
    exact h
  · rw [heq]
    intro p hp
    simp only [storeStep, fdUpsert, List.mem_cons] at hp
    rcases hp with rfl | hp
    · simp [hmd]
    · exact h p hp

theorem facilityFold_keys (meta : Metadata) :
    ∀ (fs : List FacilityMsg) (st : EngineState),
      storeKeysKnown meta st.facilities_data →
      storeKeysKnown meta ((fs.foldl (integrateFacilityMsg meta) st)).facilities_data := by
  intro fs
  induction fs with
  | nil => intro st h; exact h
  | cons f t ih =>
      intro st h
      rw [List.foldl_cons]
      exact ih _ (integrateFacilityMsg_keys meta st f h)

theorem integrate_data_sources_keys (meta : Metadata) (st : EngineState)
    (ms : List MarketMsg) (fs : List FacilityMsg)
    (h : storeKeysKnown meta st.facilities_data) :
    storeKeysKnown meta (integrate_data_sources meta st ms fs).facilities_data := by
  unfold integrate_data_sources
  exact facilityFold_keys meta fs _ h

/-- C4: readings for codes outside the metadata are filtered, never
stored — over any sequence of cycles, if every key of the Facility State
Store is a known code, that stays true. -/
theorem unknown_codes_never_stored (meta : Metadata) :
    ∀ (cycles : List (List MarketMsg × List FacilityMsg)) (st : EngineState),
      storeKeysKnown meta st.facilities_data →
      storeKeysKnown meta (runCycles meta st cycles).facilities_data := by
  intro cycles
  induction cycles with
  | nil => intro st h; exact h
  | cons cyc t ih =>
      intro st h
      rw [runCycles, List.foldl_cons]
      exact ih _ (integrate_data_sources_keys meta st cyc.1 cyc.2 h)

theorem unknown_codes_never_stored_witness :
    storeKeysKnown meta0 st0.facilities_data ∧
    storeKeysKnown meta0 (runCycles meta0 st0 cycles0).facilities_data :=
  ⟨by simp [storeKeysKnown, st0],
    unknown_codes_never_stored meta0 cycles0 st0 (by simp [storeKeysKnown, st0])⟩

/-- C8 amended: the fuel field of a record newly produced by a facility
drain iteration is the metadata's raw fuel label, stored unmodified —
`normalize_fuel` is not applied on this path. -/
theorem record_fuel_is_raw_metadata (meta : Metadata) (st : EngineState) (msg : FacilityMsg)
    (c : String) (md : FacilityMeta) (r : IntegratedRecord)
    (hc : msg.facility_code = some c) (hmd : metaLookup meta c = some md)
    (hstep : fdLookup (integrateFacilityMsg meta st msg).facilities_data c = some r)
    (hnew : fdLookup st.facilities_data c ≠ some r) :
    r.fuel_type = md.fuel_type := by
  rcases integrateFacilityMsg_cases meta st msg with heq |
    ⟨c2, md2, pw, em, ts, hc2, hmd2, hts, hpw, hem, heq⟩
  · rw [heq] at hstep
    exact absurd hstep hnew
  · have ec : c2 = c := by
      rw [hc] at hc2
      exact (Option.some.inj hc2).symm
    subst ec
    have emd : md2 = md := by
      rw [hmd] at hmd2
      exact (Option.some.inj hmd2).symm
    subst emd
    rw [heq, fdLookup_storeStep_hit] at hstep
    rw [← Option.some.inj hstep]
    rfl

theorem record_fuel_is_raw_metadata_witness :
    f0.facility_code = some "F1" ∧ metaLookup meta0 "F1" = some md0 ∧
    fdLookup (integrateFacilityMsg meta0 st0 f0).facilities_data "F1" = some rec0 ∧
    fdLookup st0.facilities_data "F1" ≠ some rec0 ∧
    rec0.fuel_type = md0.fuel_type :=
  ⟨by decide, by decide, by decide, by decide,
    record_fuel_is_raw_metadata meta0 st0 f0 "F1" md0 rec0
      (by decide) (by decide) (by decide) (by decide)⟩

/-- C8 counterexample: the engine stores the raw metadata label
"blackcoal" in the record's fuel field, while the §4.6 normalization of
that label is "Black Coal" — the record's fuel category is not the
normalized form of the metadata's raw fuel label. -/
theorem fuel_not_normalized_counterexample :
    (fdLookup (integrate_data_sources meta0 st0 [m0] [f0]).facilities_data
        "F1").map IntegratedRecord.fuel_type = some "blackcoal" ∧
    normalize_fuel (some "blackcoal") = "Black Coal" ∧
    ("blackcoal" : String) ≠ "Black Coal" :=
  ⟨by decide, by decide, by decide⟩

/-- A facility message missing any required field is a pure skip. -/
theorem integrateFacilityMsg_skip (meta : Metadata) (st : EngineState) (msg : FacilityMsg)
    (h : msg.facility_code = none ∨ msg.timestamp = none ∨ msg.power = none ∨
      msg.emissions = none) :
    integrateFacilityMsg meta st msg = st := by
  rcases integrateFacilityMsg_cases meta st msg with heq |
    ⟨c, md, pw, em, ts, hc, hmd, hts, hpw, hem, heq⟩
  · exact heq
  · exfalso
    rcases h with h | h | h | h
    · rw [h] at hc
      cases hc
    · rw [h] at hts
      cases hts
    · rw [h] at hpw
      cases hpw
    · rw [h] at hem
      cases hem

/-- C9: a message that fails processing (missing or malformed required
field) is dropped in isolation: the cycle computes exactly the state it
would compute without that message, so all other messages of the batch
are processed and, the cycle function being total, subsequent cycles
run unaffected. -/
theorem per_message_failure_isolated :
    (∀ (meta : Metadata) (st : EngineState) (ms1 ms2 : List MarketMsg) (bad : MarketMsg)
        (fs : List FacilityMsg), parseMarket bad = none →
        integrate_data_sources meta st (ms1 ++ bad :: ms2) fs
          = integrate_data_sources meta st (ms1 ++ ms2) fs) ∧
    (∀ (meta : Metadata) (st : EngineState) (ms : List MarketMsg)
        (fs1 fs2 : List FacilityMsg) (bad : FacilityMsg),
        (bad.facility_code = none ∨ bad.timestamp = none ∨ bad.power = none ∨
          bad.emissions = none) →
        integrate_data_sources meta st ms (fs1 ++ bad :: fs2)
          = integrate_data_sources meta st ms (fs1 ++ fs2)) := by
  constructor
  · intro meta st ms1 ms2 bad fs h
    unfold integrate_data_sources
    have h1 : processMarketBatch st.market_buckets (ms1 ++ bad :: ms2)
        = processMarketBatch st.market_buckets (ms1 ++ ms2) := by
      simp [processMarketBatch, List.foldl_append, List.foldl_cons, processMarketMsg, h]
    rw [h1]
  · intro meta st ms fs1 fs2 bad h
    unfold integrate_data_sources
    rw [List.foldl_append, List.foldl_cons, integrateFacilityMsg_skip meta _ bad h,
      ← List.foldl_append]

theorem per_message_failure_isolated_witness :
    parseMarket badM = none ∧
    integrate_data_sources meta0 st0 (badM :: [m0]) [f0]
      = integrate_data_sources meta0 st0 [m0] [f0] ∧
    (badF.facility_code = none ∨ badF.timestamp = none ∨ badF.power = none ∨
      badF.emissions = none) ∧
    integrate_data_sources meta0 st0 [m0] ([f0] ++ badF :: [])
      = integrate_data_sources meta0 st0 [m0] ([f0] ++ []) := by
  refine ⟨by decide, ?_, by decide, ?_⟩
  · exact per_message_failure_isolated.1 meta0 st0 [] [m0] badM [f0] (by decide)
  · exact per_message_failure_isolated.2 meta0 st0 [m0] [f0] [] badF (by decide)

end MtqqDashboard
